import Mathlib

/-!
Verification of the phase-based load-shape scheduler of the
`locust-framework` repository.

Numbers: the Python code computes with floats and unbounded ints; we
embed times, durations and spawn rates as `ℚ` (exact arithmetic, the
idealised semantics the documentation describes) and user counts as
`ℤ`.  Python's `int(x)` conversion truncates toward zero; `pyInt`
below models it.  Fallible operations (Python exceptions) are embedded
in `Except String`.
-/

/-- Python's `int(...)` applied to a rational: truncation toward zero. -/
def pyInt (q : ℚ) : ℤ := if 0 ≤ q then ⌊q⌋ else ⌈q⌉

/-- `src/load_shaper/Phase.py`: a single load-test phase. -/
structure Phase where
  start_time : ℚ
  duration : ℚ
  user_start : ℤ
  user_end : ℤ
  spawn_rate : ℚ
deriving DecidableEq, Repr, Inhabited

/-- `Phase.user_count_at` from `src/load_shaper/Phase.py` (lines 47-81):
window check with inclusive bounds, instant transition when
`duration == 0`, otherwise linear interpolation truncated by `int(...)`. -/
def Phase.user_count_at (p : Phase) (t : ℚ) : Option ℤ :=
  if t < p.start_time ∨ t > p.start_time + p.duration then
    none
  else if p.duration = 0 then
    some p.user_end
  else
    some (pyInt ((p.user_start : ℚ) +
      ((p.user_end : ℚ) - (p.user_start : ℚ)) * ((t - p.start_time) / p.duration)))

namespace CustomLoadShape

/-- `CustomLoadShape.tick` from `src/load_shaper/LoadShapeTest.py`
(lines 101-120): scan the phase list in order, return the first phase
whose `user_count_at` is defined, paired with its `spawn_rate`. -/
def tick (phases : List Phase) (run_time : ℚ) : Option (ℤ × ℚ) :=
  match phases with
  | [] => none
  | p :: rest =>
    match p.user_count_at run_time with
    | some user_count => some (user_count, p.spawn_rate)
    | none => tick rest run_time

end CustomLoadShape

namespace LoadProfileFactory

/-- Mutable state of `LoadProfileFactory`
(`src/load_shaper/LoadProfileFactory.py` lines 28-35): the phase list
and the time cursor. -/
structure FactoryState where
  phases : List Phase
  current_time : ℚ
deriving DecidableEq, Repr

/-- A fresh factory: empty phase list, cursor at 0. -/
def mkFactory : FactoryState := ⟨[], 0⟩

/-- `LoadProfileFactory.spike` (lines 37-57): appends a phase of
duration 0.1 with `user_start = user_end = spawn_rate = users` and
advances the cursor by 0.1. -/
def spike (st : FactoryState) (users : ℤ) : FactoryState :=
  ⟨st.phases ++ [⟨st.current_time, 0.1, users, users, (users : ℚ)⟩],
   st.current_time + 0.1⟩

/-- `self.phases[-1].user_end if self.phases else 0` (line 73). -/
def lastUserEnd (phases : List Phase) : ℤ :=
  match phases.getLast? with
  | some p => p.user_end
  | none => 0

/-- `LoadProfileFactory.ramp_up` (lines 59-81): ramps from the previous
phase's `user_end` (or 0) to `to_users`; the spawn rate is
`(to_users - from_users) / duration`, so a zero duration raises
Python's `ZeroDivisionError` (there is no explicit guard in the code). -/
def ramp_up (st : FactoryState) (to_users : ℤ) (duration : ℚ) :
    Except String FactoryState :=
  if duration = 0 then Except.error "ZeroDivisionError"
  else
    Except.ok ⟨st.phases ++ [⟨st.current_time, duration, lastUserEnd st.phases,
        to_users, ((to_users : ℚ) - (lastUserEnd st.phases : ℚ)) / duration⟩],
      st.current_time + duration⟩

/-- `LoadProfileFactory.steady_users` (lines 83-103): constant user
count, spawn rate 1; no validation of the duration at all. -/
def steady_users (st : FactoryState) (users : ℤ) (duration : ℚ) : FactoryState :=
  ⟨st.phases ++ [⟨st.current_time, duration, users, users, 1⟩],
   st.current_time + duration⟩

/-- `LoadProfileFactory.stress_ramp` (lines 105-128): explicit
`from_users → to_users` ramp; zero duration raises `ZeroDivisionError`
through the spawn-rate division, as in `ramp_up`. -/
def stress_ramp (st : FactoryState) (from_users to_users : ℤ) (duration : ℚ) :
    Except String FactoryState :=
  if duration = 0 then Except.error "ZeroDivisionError"
  else
    Except.ok ⟨st.phases ++ [⟨st.current_time, duration, from_users, to_users,
        ((to_users : ℚ) - (from_users : ℚ)) / duration⟩],
      st.current_time + duration⟩

/-- `LoadProfileFactory.build` (lines 130-144): simply returns the
phase list; it does not freeze or invalidate the factory. -/
def build (st : FactoryState) : List Phase := st.phases

/-- One builder call, as an explicit command. -/
inductive BuildCmd where
  | spike (users : ℤ)
  | rampUp (to_users : ℤ) (duration : ℚ)
  | steadyUsers (users : ℤ) (duration : ℚ)
  | stressRamp (from_users to_users : ℤ) (duration : ℚ)
deriving DecidableEq, Repr

/-- Apply one builder call to the factory state. -/
def applyCmd (st : FactoryState) : BuildCmd → Except String FactoryState
  | BuildCmd.spike u => Except.ok (spike st u)
  | BuildCmd.rampUp to_users d => ramp_up st to_users d
  | BuildCmd.steadyUsers u d => Except.ok (steady_users st u d)
  | BuildCmd.stressRamp f to_users d => stress_ramp st f to_users d

/-- Run a chain of builder calls from a given state, stopping at the
first Python exception. -/
def runFrom (st : FactoryState) : List BuildCmd → Except String FactoryState
  | [] => Except.ok st
  | c :: cs =>
    match applyCmd st c with
    | Except.ok st1 => runFrom st1 cs
    | Except.error e => Except.error e

/-- Run a chain of builder calls on a fresh factory. -/
def runBuilder (cmds : List BuildCmd) : Except String FactoryState :=
  runFrom mkFactory cmds

/-- The duration parameter of a builder call (`spike` hard-codes 0.1). -/
def cmdDuration : BuildCmd → ℚ
  | BuildCmd.spike _ => 0.1
  | BuildCmd.rampUp _ d => d
  | BuildCmd.steadyUsers _ d => d
  | BuildCmd.stressRamp _ _ d => d

end LoadProfileFactory

open LoadProfileFactory

/-- The builder chain of `CustomLoadShape.__init__`
(`src/load_shaper/LoadShapeTest.py` lines 84-99, with the constants of
lines 75-82): spike(10), ramp_up(20, 10), steady_users(5, 5),
stress_ramp(5, 15, 10). -/
def demoCmds : List BuildCmd :=
  [BuildCmd.spike 10, BuildCmd.rampUp 20 10,
   BuildCmd.steadyUsers 5 5, BuildCmd.stressRamp 5 15 10]

/-- The phase list `CustomLoadShape.__init__` stores in `self.phases`. -/
def demoPhases : List Phase :=
  match runBuilder demoCmds with
  | Except.ok st => LoadProfileFactory.build st
  | Except.error _ => []

def spikePhase : Phase := ⟨0, 0.1, 10, 10, 10⟩

def rampPhase : Phase := ⟨0.1, 10, 10, 20, 1⟩

def steadyPhase : Phase := ⟨10.1, 5, 5, 5, 1⟩

def stressPhase : Phase := ⟨15.1, 10, 5, 15, 1⟩

/-- The factory state after the four demo builder calls. -/
def demoFinal : FactoryState :=
  ⟨[spikePhase, rampPhase, steadyPhase, stressPhase], 25.1⟩

namespace BaseLoadShape

/-- `Queue.put` on the shared FIFO queue of
`src/simulations/base/base_load_shape.py`: new items go to the back;
the head of the list is the oldest item. -/
def queuePut (q : List (ℤ × ℚ)) (item : ℤ × ℚ) : List (ℤ × ℚ) := q ++ [item]

/-- `BaseLoadShape.tick` (lines 93-108): non-blocking check; when the
queue is non-empty, `get_nowait()` removes and returns the item at the
FRONT of the FIFO queue; otherwise `None`.  Returned together with the
remaining queue contents. -/
def tick (q : List (ℤ × ℚ)) : Option ((ℤ × ℚ) × List (ℤ × ℚ)) :=
  match q with
  | [] => none
  | item :: rest => some (item, rest)

/-- Outcome of one iteration of the worker loop. -/
inductive WorkerAction where
  | exitLoop
  | push (item : ℤ × ℚ)
  | idle
deriving DecidableEq, Repr

/-- One iteration of `BaseLoadShape._execute_phase` (lines 40-65):
check the stop event, break when the global elapsed time exceeds
`phase.duration` (note: NOT `phase.start_time + phase.duration`),
otherwise push `(user_count, spawn_rate)` when
`phase.user_count_at(elapsed)` is defined. -/
def workerStep (phase : Phase) (stopSet : Bool) (elapsed : ℚ) : WorkerAction :=
  if stopSet then WorkerAction.exitLoop
  else if elapsed > phase.duration then WorkerAction.exitLoop
  else
    match phase.user_count_at elapsed with
    | some c => WorkerAction.push (c, phase.spawn_rate)
    | none => WorkerAction.idle

end BaseLoadShape

/-! ### Helper predicates for builder invariants -/

/-- The phase list is contiguous starting at time `s`: each phase
starts where the previous one ended. -/
def contiguousFrom : ℚ → List Phase → Prop
  | _, [] => True
  | s, p :: rest => p.start_time = s ∧ contiguousFrom (p.start_time + p.duration) rest

/-- End time of a contiguous chain started at `s`. -/
def endTime : ℚ → List Phase → ℚ
  | s, [] => s
  | _, p :: rest => endTime (p.start_time + p.duration) rest

/-- Builder invariant: the phase list is contiguous from 0 and the
cursor sits at the end of the chain. -/
def FactoryInv (st : FactoryState) : Prop :=
  contiguousFrom 0 st.phases ∧ st.current_time = endTime 0 st.phases

/-! ### Basic lemmas about `pyInt` and `Phase.user_count_at` -/

lemma pyInt_intCast (n : ℤ) : pyInt (n : ℚ) = n := by
  unfold pyInt; split <;> simp

lemma pyInt_of_nonneg (q : ℚ) (h : 0 ≤ q) : pyInt q = ⌊q⌋ := if_pos h

lemma user_count_at_none_iff (p : Phase) (t : ℚ) :
    p.user_count_at t = none ↔ (t < p.start_time ∨ p.start_time + p.duration < t) := by
  unfold Phase.user_count_at
  split
  · next h => simpa using h
  · next h =>
    have h' : ¬(t < p.start_time ∨ p.start_time + p.duration < t) := by simpa using h
    split <;> simp [h']

lemma user_count_at_of_zero (p : Phase) (t : ℚ)
    (h1 : p.start_time ≤ t) (h2 : t ≤ p.start_time + p.duration) (hd : p.duration = 0) :
    p.user_count_at t = some p.user_end := by
  unfold Phase.user_count_at
  rw [if_neg (by push_neg; exact ⟨h1, h2⟩), if_pos hd]

lemma user_count_at_of_pos (p : Phase) (t : ℚ)
    (h1 : p.start_time ≤ t) (h2 : t ≤ p.start_time + p.duration) (hd : p.duration ≠ 0) :
    p.user_count_at t = some (pyInt ((p.user_start : ℚ) +
      ((p.user_end : ℚ) - (p.user_start : ℚ)) * ((t - p.start_time) / p.duration))) := by
  unfold Phase.user_count_at
  rw [if_neg (by push_neg; exact ⟨h1, h2⟩), if_neg hd]

lemma user_count_at_isSome (p : Phase) (t : ℚ)
    (h1 : p.start_time ≤ t) (h2 : t ≤ p.start_time + p.duration) :
    (p.user_count_at t).isSome := by
  unfold Phase.user_count_at
  rw [if_neg (by push_neg; exact ⟨h1, h2⟩)]
  split <;> rfl

lemma user_count_at_none_of_gt (p : Phase) (t : ℚ)
    (h : p.start_time + p.duration < t) : p.user_count_at t = none := by
  unfold Phase.user_count_at; rw [if_pos (Or.inr h)]

/-! ### Basic lemmas about the synchronous `tick` -/

lemma tick_nil (t : ℚ) : CustomLoadShape.tick [] t = none := rfl

lemma tick_cons_some (p : Phase) (rest : List Phase) (t : ℚ) (c : ℤ)
    (h : p.user_count_at t = some c) :
    CustomLoadShape.tick (p :: rest) t = some (c, p.spawn_rate) := by
  simp [CustomLoadShape.tick, h]

lemma tick_cons_none (p : Phase) (rest : List Phase) (t : ℚ)
    (h : p.user_count_at t = none) :
    CustomLoadShape.tick (p :: rest) t = CustomLoadShape.tick rest t := by
  simp [CustomLoadShape.tick, h]

/-! ### The demo profile evaluates as expected -/

lemma runBuilder_demo : runBuilder demoCmds = Except.ok demoFinal := by
  norm_num [runBuilder, runFrom, applyCmd, mkFactory, LoadProfileFactory.spike,
    ramp_up, steady_users, stress_ramp, lastUserEnd, demoCmds, demoFinal,
    spikePhase, rampPhase, steadyPhase, stressPhase]

lemma demoPhases_eq :
    demoPhases = [spikePhase, rampPhase, steadyPhase, stressPhase] := by
  unfold demoPhases
  rw [runBuilder_demo]
  rfl

/-! ### Contiguity machinery for builder-produced sequences -/

@[simp] lemma contiguousFrom_nil (s : ℚ) : contiguousFrom s [] := trivial

@[simp] lemma contiguousFrom_cons (s : ℚ) (p : Phase) (rest : List Phase) :
    contiguousFrom s (p :: rest) ↔
      p.start_time = s ∧ contiguousFrom (p.start_time + p.duration) rest :=
  Iff.rfl

@[simp] lemma endTime_nil (s : ℚ) : endTime s [] = s := rfl

@[simp] lemma endTime_cons (s : ℚ) (p : Phase) (rest : List Phase) :
    endTime s (p :: rest) = endTime (p.start_time + p.duration) rest := rfl

lemma contiguousFrom_append (s : ℚ) (l : List Phase) (p : Phase)
    (h : contiguousFrom s l) (hp : p.start_time = endTime s l) :
    contiguousFrom s (l ++ [p]) := by
  induction l generalizing s with
  | nil => exact ⟨by simpa using hp, trivial⟩
  | cons q rest ih =>
    obtain ⟨h1, h2⟩ := h
    exact ⟨h1, ih _ h2 (by simpa using hp)⟩

lemma endTime_append (s : ℚ) (l : List Phase) (p : Phase) :
    endTime s (l ++ [p]) = p.start_time + p.duration := by
  induction l generalizing s with
  | nil => rfl
  | cons q rest ih => simpa using ih (q.start_time + q.duration)

/-- Every successful builder call appends exactly one phase, starting
at the old cursor, with duration `cmdDuration c`, and advances the
cursor by that duration. -/
lemma applyCmd_shape (st st1 : FactoryState) (c : BuildCmd)
    (h : applyCmd st c = Except.ok st1) :
    ∃ newp : Phase, st1.phases = st.phases ++ [newp] ∧
      newp.start_time = st.current_time ∧ newp.duration = cmdDuration c ∧
      st1.current_time = st.current_time + cmdDuration c := by
  cases c with
  | spike u =>
    simp only [applyCmd, Except.ok.injEq] at h
    subst h
    exact ⟨_, rfl, rfl, rfl, rfl⟩
  | rampUp to_users d =>
    simp only [applyCmd, ramp_up] at h
    split at h
    · simp at h
    · simp only [Except.ok.injEq] at h
      subst h
      exact ⟨_, rfl, rfl, rfl, rfl⟩
  | steadyUsers u d =>
    simp only [applyCmd, Except.ok.injEq] at h
    subst h
    exact ⟨_, rfl, rfl, rfl, rfl⟩
  | stressRamp f to_users d =>
    simp only [applyCmd, stress_ramp] at h
    split at h
    · simp at h
    · simp only [Except.ok.injEq] at h
      subst h
      exact ⟨_, rfl, rfl, rfl, rfl⟩

lemma applyCmd_inv (st st1 : FactoryState) (c : BuildCmd)
    (h : applyCmd st c = Except.ok st1) (hinv : FactoryInv st) : FactoryInv st1 := by
  obtain ⟨newp, hp, hs, hdur, hct⟩ := applyCmd_shape st st1 c h
  obtain ⟨hc, he⟩ := hinv
  constructor
  · rw [hp]
    exact contiguousFrom_append 0 st.phases newp hc (hs.trans he)
  · rw [hct, hp, endTime_append, hs, hdur]

lemma runFrom_inv (cmds : List BuildCmd) (st st1 : FactoryState)
    (h : runFrom st cmds = Except.ok st1) (hinv : FactoryInv st) : FactoryInv st1 := by
  induction cmds generalizing st with
  | nil =>
    simp only [runFrom, Except.ok.injEq] at h
    subst h
    exact hinv
  | cons c cs ih =>
    simp only [runFrom] at h
    cases happ : applyCmd st c with
    | ok st2 =>
      rw [happ] at h
      exact ih st2 h (applyCmd_inv st st2 c happ hinv)
    | error e =>
      rw [happ] at h
      simp at h

lemma runBuilder_inv (cmds : List BuildCmd) (st : FactoryState)
    (h : runBuilder cmds = Except.ok st) : FactoryInv st :=
  runFrom_inv cmds mkFactory st h ⟨trivial, rfl⟩

lemma runFrom_durations (cmds : List BuildCmd) (st st1 : FactoryState)
    (h : runFrom st cmds = Except.ok st1)
    (hc : ∀ c ∈ cmds, 0 < cmdDuration c)
    (hst : ∀ p ∈ st.phases, 0 < p.duration) :
    ∀ p ∈ st1.phases, 0 < p.duration := by
  induction cmds generalizing st with
  | nil =>
    simp only [runFrom, Except.ok.injEq] at h
    subst h
    exact hst
  | cons c cs ih =>
    simp only [runFrom] at h
    cases happ : applyCmd st c with
    | ok st2 =>
      rw [happ] at h
      apply ih st2 h (fun c' hc' => hc c' (List.mem_cons_of_mem _ hc'))
      obtain ⟨newp, hp, hs, hdur, hct⟩ := applyCmd_shape st st2 c happ
      rw [hp]
      intro p hmem
      rcases List.mem_append.1 hmem with hm | hm
      · exact hst p hm
      · rw [List.mem_singleton] at hm
        subst hm
        rw [hdur]
        exact hc c (List.mem_cons_self c cs)
    | error e =>
      rw [happ] at h
      simp at h

lemma contiguousFrom_get (s : ℚ) (ps : List Phase) (h : contiguousFrom s ps) :
    ∀ i, i + 1 < ps.length →
      (ps.getD (i + 1) default).start_time
        = (ps.getD i default).start_time + (ps.getD i default).duration := by
  induction ps generalizing s with
  | nil => intro i hi; simp at hi
  | cons p rest ih =>
    obtain ⟨h1, h2⟩ := h
    intro i hi
    cases i with
    | zero =>
      cases rest with
      | nil => simp at hi
      | cons q r =>
        obtain ⟨hq, _⟩ := h2
        simpa using hq
    | succ j =>
      have hj : j + 1 < rest.length := by
        simp only [List.length_cons] at hi
        omega
      simpa using ih (p.start_time + p.duration) h2 j hj

lemma contiguousFrom_head (s : ℚ) (ps : List Phase) (h : contiguousFrom s ps)
    (p : Phase) (hp : ps.head? = some p) : p.start_time = s := by
  cases ps with
  | nil => simp at hp
  | cons q rest =>
    simp only [List.head?_cons, Option.some.injEq] at hp
    subst hp
    exact h.1

/-- A non-empty contiguous chain of phases with non-negative durations
covers its whole span: the scan finds a matching phase. -/
lemma tick_isSome_of_contiguous (ps : List Phase) :
    ∀ s t : ℚ, contiguousFrom s ps → (∀ p ∈ ps, 0 ≤ p.duration) → ps ≠ [] →
      s ≤ t → t ≤ endTime s ps → (CustomLoadShape.tick ps t).isSome := by
  induction ps with
  | nil => intro s t _ _ hne _ _; exact absurd rfl hne
  | cons p rest ih =>
    intro s t h hd hne h1 h2
    obtain ⟨hs, hchain⟩ := h
    by_cases hcase : t ≤ p.start_time + p.duration
    · have hsome := user_count_at_isSome p t (hs.trans_le h1) hcase
      cases hm : p.user_count_at t with
      | none => rw [hm] at hsome; simp at hsome
      | some c => rw [tick_cons_some p rest t c hm]; rfl
    · push_neg at hcase
      rw [tick_cons_none p rest t (user_count_at_none_of_gt p t hcase)]
      cases rest with
      | nil => exact absurd (by simpa using h2) (not_le.2 hcase)
      | cons q r =>
        exact ih (p.start_time + p.duration) t hchain
          (fun p' hp' => hd p' (List.mem_cons_of_mem _ hp'))
          (by simp) (le_of_lt hcase) (by simpa using h2)

/-! ### Claim theorems -/

/-- C1: `Phase.user_count_at` returns NONE exactly when `t` lies
outside the inclusive window `[startTime, startTime + duration]`;
inside the window it returns `userEnd` when the duration is 0 and
otherwise the floor of the linear interpolation
`userStart + (userEnd - userStart) * ((t - startTime)/duration)`,
which equals `userStart` at the window's start and `userEnd` at its
end (user counts are non-negative per the data model). -/
theorem C1_user_count_at_spec (p : Phase) (t : ℚ)
    (hus : 0 ≤ p.user_start) (hue : 0 ≤ p.user_end) :
    (p.user_count_at t = none ↔ (t < p.start_time ∨ p.start_time + p.duration < t))
    ∧ (p.duration = 0 → p.start_time ≤ t → t ≤ p.start_time + p.duration →
        p.user_count_at t = some p.user_end)
    ∧ (p.duration ≠ 0 → p.start_time ≤ t → t ≤ p.start_time + p.duration →
        p.user_count_at t = some ⌊(p.user_start : ℚ) +
          ((p.user_end : ℚ) - (p.user_start : ℚ)) * ((t - p.start_time) / p.duration)⌋)
    ∧ (0 < p.duration →
        p.user_count_at p.start_time = some p.user_start
        ∧ p.user_count_at (p.start_time + p.duration) = some p.user_end) := by
  refine ⟨user_count_at_none_iff p t,
    fun hd h1 h2 => user_count_at_of_zero p t h1 h2 hd, ?_, ?_⟩
  · intro hd h1 h2
    rw [user_count_at_of_pos p t h1 h2 hd]
    have hd0 : 0 ≤ p.duration := by
      by_contra hneg
      push_neg at hneg
      linarith
    have hdpos : 0 < p.duration := lt_of_le_of_ne hd0 (Ne.symm hd)
    have hpr0 : 0 ≤ (t - p.start_time) / p.duration :=
      div_nonneg (by linarith) (le_of_lt hdpos)
    have hpr1 : (t - p.start_time) / p.duration ≤ 1 := by
      rw [div_le_one hdpos]
      linarith
    have h1' : (0 : ℚ) ≤ (p.user_start : ℚ) := by exact_mod_cast hus
    have h2' : (0 : ℚ) ≤ (p.user_end : ℚ) := by exact_mod_cast hue
    have hv : 0 ≤ (p.user_start : ℚ) +
        ((p.user_end : ℚ) - (p.user_start : ℚ)) * ((t - p.start_time) / p.duration) := by
      nlinarith [mul_nonneg h1' (sub_nonneg.2 hpr1), mul_nonneg h2' hpr0]
    rw [pyInt_of_nonneg _ hv]
  · intro hdpos
    constructor
    · have hX : (p.user_start : ℚ) + ((p.user_end : ℚ) - (p.user_start : ℚ)) *
          ((p.start_time - p.start_time) / p.duration) = (p.user_start : ℚ) := by
        rw [sub_self, zero_div, mul_zero, add_zero]
      rw [user_count_at_of_pos p p.start_time (le_refl _) (by linarith)
        (ne_of_gt hdpos), hX, pyInt_intCast]
    · have hX : (p.user_start : ℚ) + ((p.user_end : ℚ) - (p.user_start : ℚ)) *
          ((p.start_time + p.duration - p.start_time) / p.duration) = (p.user_end : ℚ) := by
        rw [add_sub_cancel_left, div_self (ne_of_gt hdpos)]
        ring
      rw [user_count_at_of_pos p (p.start_time + p.duration) (by linarith) (le_refl _)
        (ne_of_gt hdpos), hX, pyInt_intCast]

/-- The concrete phase used to witness C1. -/
def wPhase : Phase := ⟨0, 2, 1, 5, 1⟩

/-- C1 witness: the specification theorem instantiated at the phase
`{startTime 0, duration 2, userStart 1, userEnd 5}` and time 1. -/
theorem C1_user_count_at_spec_witness :
    0 ≤ wPhase.user_start ∧ 0 ≤ wPhase.user_end ∧
    ((wPhase.user_count_at 1 = none ↔
        ((1 : ℚ) < wPhase.start_time ∨ wPhase.start_time + wPhase.duration < 1))
     ∧ (wPhase.duration = 0 → wPhase.start_time ≤ 1 →
          (1 : ℚ) ≤ wPhase.start_time + wPhase.duration →
          wPhase.user_count_at 1 = some wPhase.user_end)
     ∧ (wPhase.duration ≠ 0 → wPhase.start_time ≤ 1 →
          (1 : ℚ) ≤ wPhase.start_time + wPhase.duration →
          wPhase.user_count_at 1 = some ⌊(wPhase.user_start : ℚ) +
            ((wPhase.user_end : ℚ) - (wPhase.user_start : ℚ)) *
              ((1 - wPhase.start_time) / wPhase.duration)⌋)
     ∧ (0 < wPhase.duration →
          wPhase.user_count_at wPhase.start_time = some wPhase.user_start
          ∧ wPhase.user_count_at (wPhase.start_time + wPhase.duration)
              = some wPhase.user_end)) :=
  ⟨by decide, by decide,
   C1_user_count_at_spec wPhase 1 (by decide) (by decide)⟩

/-- If every phase of a prefix rejects `t`, the scan skips it. -/
lemma tick_append (pre post : List Phase) (t : ℚ)
    (hpre : ∀ q ∈ pre, q.user_count_at t = none) :
    CustomLoadShape.tick (pre ++ post) t = CustomLoadShape.tick post t := by
  induction pre with
  | nil => rfl
  | cons q rest ih =>
    rw [List.cons_append, tick_cons_none q _ t (hpre q (List.mem_cons_self q rest))]
    exact ih (fun q' hq' => hpre q' (List.mem_cons_of_mem _ hq'))

/-- C2: the synchronous tick returns the FIRST phase in sequence order
whose `user_count_at` is defined, paired with that phase's spawn rate;
at the shared boundary t = 10.1 of the demo chain both the ramp phase
(value 20) and the steady phase (value 5) match, and tick returns the
ramp phase's output (20, 1), 1 being the ramp spawn rate (20-10)/10. -/
theorem C2_tick_first_match (pre post : List Phase) (p : Phase) (t : ℚ) (c : ℤ)
    (hpre : ∀ q ∈ pre, q.user_count_at t = none)
    (hp : p.user_count_at t = some c) :
    CustomLoadShape.tick (pre ++ p :: post) t = some (c, p.spawn_rate)
    ∧ CustomLoadShape.tick demoPhases 10.1 = some (20, 1)
    ∧ rampPhase.user_count_at 10.1 = some 20
    ∧ steadyPhase.user_count_at 10.1 = some 5
    ∧ rampPhase.spawn_rate = 1 := by
  have hsp : spikePhase.user_count_at (10.1 : ℚ) = none := by
    norm_num [Phase.user_count_at, spikePhase]
  have hrp : rampPhase.user_count_at (10.1 : ℚ) = some 20 := by
    norm_num [Phase.user_count_at, pyInt, rampPhase]
  have hst : steadyPhase.user_count_at (10.1 : ℚ) = some 5 := by
    norm_num [Phase.user_count_at, pyInt, steadyPhase]
  refine ⟨?_, ?_, hrp, hst, rfl⟩
  · rw [tick_append pre (p :: post) t hpre, tick_cons_some p post t c hp]
  · rw [demoPhases_eq, tick_cons_none _ _ _ hsp, tick_cons_some _ _ _ _ hrp]
    rfl

/-- C2 witness: first-match applied to the demo chain at t = 10.1 with
the spike phase as (rejecting) prefix and the ramp phase matching. -/
theorem C2_tick_first_match_witness :
    spikePhase.user_count_at (10.1 : ℚ) = none
    ∧ rampPhase.user_count_at (10.1 : ℚ) = some 20
    ∧ CustomLoadShape.tick ([spikePhase] ++ rampPhase :: [steadyPhase, stressPhase]) 10.1
        = some (20, rampPhase.spawn_rate) := by
  have hsp : spikePhase.user_count_at (10.1 : ℚ) = none := by
    norm_num [Phase.user_count_at, spikePhase]
  have hrp : rampPhase.user_count_at (10.1 : ℚ) = some 20 := by
    norm_num [Phase.user_count_at, pyInt, rampPhase]
  exact ⟨hsp, hrp,
    (C2_tick_first_match [spikePhase] [steadyPhase, stressPhase] rampPhase 10.1 20
      (by intro q hq; rw [List.mem_singleton] at hq; subst hq; exact hsp) hrp).1⟩

/-- C3: the demo chain occupies the windows `[0, 0.1]`, `[0.1, 10.1]`,
`[10.1, 15.1]`, `[15.1, 25.1]`, and `tick(5.1)` returns exactly
`(15, 1)`: on the ramp phase the progress is 0.5, the count
`int(10 + 10 * 0.5) = 15`, and the ramp spawn rate `(20-10)/10 = 1`. -/
theorem C3_demo_profile_eval :
    demoPhases.map (fun p => (p.start_time, p.start_time + p.duration))
      = [(0, 0.1), (0.1, 10.1), (10.1, 15.1), (15.1, 25.1)]
    ∧ CustomLoadShape.tick demoPhases 5.1 = some (15, 1)
    ∧ rampPhase.spawn_rate = 1 := by
  refine ⟨?_, ?_, rfl⟩
  · rw [demoPhases_eq]
    norm_num [spikePhase, rampPhase, steadyPhase, stressPhase]
  · have hsp : spikePhase.user_count_at (5.1 : ℚ) = none := by
      norm_num [Phase.user_count_at, spikePhase]
    have hrp : rampPhase.user_count_at (5.1 : ℚ) = some 15 := by
      norm_num [Phase.user_count_at, pyInt, rampPhase]
    rw [demoPhases_eq, tick_cons_none _ _ _ hsp, tick_cons_some _ _ _ _ hrp]
    rfl

/-- A hand-built, non-contiguous sequence: the first phase covers
[0, 10] but the LAST phase ends at 1. -/
def overlapPhases : List Phase := [⟨0, 10, 5, 5, 1⟩, ⟨0, 1, 3, 3, 1⟩]

/-- C4 counterexample: with a hand-built sequence whose last phase ends
at 1 while an earlier phase still covers [0, 10], t = 5 is strictly
greater than the last phase's end yet tick(5) is not NONE. -/
theorem C4_counterexample :
    (overlapPhases.getLastD default).start_time
        + (overlapPhases.getLastD default).duration < (5 : ℚ)
    ∧ CustomLoadShape.tick overlapPhases 5 ≠ none := by
  constructor
  · show (0 : ℚ) + 1 < 5
    norm_num
  · have h : (⟨0, 10, 5, 5, 1⟩ : Phase).user_count_at 5 = some 5 := by
      norm_num [Phase.user_count_at, pyInt]
    have ht : CustomLoadShape.tick overlapPhases 5 = some (5, 1) :=
      tick_cons_some _ [⟨0, 1, 3, 3, 1⟩] 5 5 h
    rw [ht]
    simp

/-- C4 (amended): for every phase sequence and every t strictly
greater than EVERY phase's end time (for builder-produced contiguous
sequences this coincides with the last phase's end), the synchronous
tick returns NONE.  The original claim, quantified over arbitrary
sequences with only the last phase's end as bound, fails on hand-built
overlapping sequences. -/
theorem C4_tick_past_all_ends (ps : List Phase) (t : ℚ) :
    (∀ p ∈ ps, p.start_time + p.duration < t) →
    CustomLoadShape.tick ps t = none := by
  induction ps with
  | nil => intro _; rfl
  | cons p rest ih =>
    intro h
    rw [tick_cons_none p rest t
      (user_count_at_none_of_gt p t (h p (List.mem_cons_self p rest)))]
    exact ih (fun p' hp' => h p' (List.mem_cons_of_mem _ hp'))

/-- C4 witness: all demo phases end before t = 26, and tick(26) is
NONE. -/
theorem C4_tick_past_all_ends_witness :
    spikePhase.start_time + spikePhase.duration < (26 : ℚ)
    ∧ rampPhase.start_time + rampPhase.duration < (26 : ℚ)
    ∧ steadyPhase.start_time + steadyPhase.duration < (26 : ℚ)
    ∧ stressPhase.start_time + stressPhase.duration < (26 : ℚ)
    ∧ CustomLoadShape.tick demoPhases 26 = none := by
  have h1 : spikePhase.start_time + spikePhase.duration < (26 : ℚ) := by
    norm_num [spikePhase]
  have h2 : rampPhase.start_time + rampPhase.duration < (26 : ℚ) := by
    norm_num [rampPhase]
  have h3 : steadyPhase.start_time + steadyPhase.duration < (26 : ℚ) := by
    norm_num [steadyPhase]
  have h4 : stressPhase.start_time + stressPhase.duration < (26 : ℚ) := by
    norm_num [stressPhase]
  refine ⟨h1, h2, h3, h4, C4_tick_past_all_ends demoPhases 26 ?_⟩
  rw [demoPhases_eq]
  intro p hp
  simp only [List.mem_cons, List.not_mem_nil, or_false] at hp
  rcases hp with rfl | rfl | rfl | rfl
  · exact h1
  · exact h2
  · exact h3
  · exact h4

/-- C5: every successfully built sequence is contiguous — each phase
starts exactly where the previous one ended — and its first phase
starts at 0. -/
theorem C5_builder_contiguous (cmds : List BuildCmd) (st : FactoryState)
    (h : runBuilder cmds = Except.ok st) :
    (∀ i, i + 1 < st.phases.length →
      (st.phases.getD (i + 1) default).start_time
        = (st.phases.getD i default).start_time + (st.phases.getD i default).duration)
    ∧ (∀ p, st.phases.head? = some p → p.start_time = 0) := by
  have hinv := runBuilder_inv cmds st h
  exact ⟨contiguousFrom_get 0 st.phases hinv.1,
    fun p hp => contiguousFrom_head 0 st.phases hinv.1 p hp⟩

/-- C5 witness: the demo chain builds successfully; phase 2 (the steady
phase) starts at the end of phase 1 (the ramp phase), and the first
phase starts at 0. -/
theorem C5_builder_contiguous_witness :
    runBuilder demoCmds = Except.ok demoFinal
    ∧ (demoFinal.phases.getD 2 default).start_time
        = (demoFinal.phases.getD 1 default).start_time
          + (demoFinal.phases.getD 1 default).duration
    ∧ spikePhase.start_time = 0 :=
  ⟨runBuilder_demo,
   (C5_builder_contiguous demoCmds demoFinal runBuilder_demo).1 1 (by decide),
   (C5_builder_contiguous demoCmds demoFinal runBuilder_demo).2 spikePhase rfl⟩

/-- C6: the claimed build-time `ConfigurationError` for non-positive
durations does not exist in the code: `steady_users(5, -1)` succeeds
and appends a phase of duration -1, and `ramp_up(10, 0)` raises
`ZeroDivisionError` (from the spawn-rate division), not a
configuration error; user counts are never validated either. -/
theorem C6_no_duration_validation :
    applyCmd mkFactory (BuildCmd.steadyUsers 5 (-1))
      = Except.ok ⟨[⟨0, -1, 5, 5, 1⟩], -1⟩
    ∧ applyCmd mkFactory (BuildCmd.rampUp 10 0) = Except.error "ZeroDivisionError" := by
  constructor
  · norm_num [applyCmd, steady_users, mkFactory]
  · norm_num [applyCmd, ramp_up]

/-- C7: `build` merely returns the current phase list and does NOT
invalidate the factory: after building the demo profile, `spike(3)`
still succeeds (no StateError exists anywhere in the code) and appends
a fifth phase to the same list. -/
theorem C7_builder_reusable_after_build :
    LoadProfileFactory.build demoFinal = demoFinal.phases
    ∧ applyCmd demoFinal (BuildCmd.spike 3)
        = Except.ok ⟨demoFinal.phases ++ [⟨25.1, 0.1, 3, 3, 3⟩], 25.2⟩ := by
  constructor
  · rfl
  · norm_num [applyCmd, LoadProfileFactory.spike, demoFinal]

/-- C8 counterexample: with (1, 1) enqueued before (2, 2), the most
recently enqueued item is (2, 2), yet `tick` dequeues (1, 1): the
queue is FIFO and `get_nowait` takes the OLDEST item. -/
theorem C8_counterexample :
    BaseLoadShape.tick
        (BaseLoadShape.queuePut (BaseLoadShape.queuePut [] (1, 1)) (2, 2))
      = some ((1, 1), [(2, 2)])
    ∧ ((1, 1) : ℤ × ℚ) ≠ (2, 2) := by
  constructor
  · rfl
  · intro h
    have h1 : (1 : ℤ) = 2 := congrArg Prod.fst h
    norm_num at h1

/-- C8 (amended): the concurrent `tick` performs a non-blocking FIFO
dequeue: NONE on the empty queue, otherwise the OLDEST (first
enqueued) item together with the rest of the queue, and it never
raises an error.  The original claim said "most recently enqueued". -/
theorem C8_tick_dequeues_oldest (q : List (ℤ × ℚ)) :
    BaseLoadShape.tick q = q.head?.map (fun item => (item, q.tail)) := by
  cases q <;> rfl

/-- A phase whose window [10, 15] starts after its duration 5 has
passed on the global clock. -/
def latePhase : Phase := ⟨10, 5, 3, 3, 1⟩

/-- C9: the worker loop compares the global elapsed time against
`phase.duration` instead of `phase.start_time + phase.duration`: for
the phase with window [10, 15], at elapsed 6 (stop flag unset) the
worker exits although the window has not begun, and at elapsed 12 —
inside the window, with `user_count_at` defined — it exits instead of
pushing. -/
theorem C9_worker_exits_before_window :
    BaseLoadShape.workerStep latePhase false 6 = BaseLoadShape.WorkerAction.exitLoop
    ∧ (6 : ℚ) < latePhase.start_time + latePhase.duration
    ∧ latePhase.user_count_at 12 = some 3
    ∧ BaseLoadShape.workerStep latePhase false 12
        = BaseLoadShape.WorkerAction.exitLoop := by
  refine ⟨?_, by norm_num [latePhase], ?_, ?_⟩
  · have h : ((6 : ℚ) > latePhase.duration) = True := by
      norm_num [latePhase]
    simp [BaseLoadShape.workerStep, h]
  · norm_num [Phase.user_count_at, pyInt, latePhase]
  · have h : ((12 : ℚ) > latePhase.duration) = True := by
      norm_num [latePhase]
    simp [BaseLoadShape.workerStep, h]

/-- C10: for every non-empty builder-produced sequence whose appended
durations are all positive, the synchronous tick is defined (returns
SOME pair) at every time t with 0 ≤ t ≤ the final time cursor: the
NONE branch is unreachable inside the built profile's span. -/
theorem C10_tick_defined_on_span (cmds : List BuildCmd) (st : FactoryState) (t : ℚ)
    (hrun : runBuilder cmds = Except.ok st) (hne : st.phases ≠ [])
    (hd : ∀ c ∈ cmds, 0 < cmdDuration c)
    (h0 : 0 ≤ t) (ht : t ≤ st.current_time) :
    (CustomLoadShape.tick st.phases t).isSome := by
  have hinv := runBuilder_inv cmds st hrun
  have hdur : ∀ p ∈ st.phases, 0 < p.duration :=
    runFrom_durations cmds mkFactory st hrun hd
      (fun p hp => absurd hp (List.not_mem_nil p))
  exact tick_isSome_of_contiguous st.phases 0 t hinv.1
    (fun p hp => le_of_lt (hdur p hp)) hne h0 (hinv.2 ▸ ht)

/-- C10 witness: the demo chain (all durations positive) is defined at
t = 7, inside its span [0, 25.1]. -/
theorem C10_tick_defined_on_span_witness :
    runBuilder demoCmds = Except.ok demoFinal
    ∧ demoFinal.phases ≠ []
    ∧ 0 < cmdDuration (BuildCmd.spike 10)
    ∧ 0 < cmdDuration (BuildCmd.rampUp 20 10)
    ∧ 0 < cmdDuration (BuildCmd.steadyUsers 5 5)
    ∧ 0 < cmdDuration (BuildCmd.stressRamp 5 15 10)
    ∧ (0 : ℚ) ≤ 7 ∧ (7 : ℚ) ≤ demoFinal.current_time
    ∧ (CustomLoadShape.tick demoFinal.phases 7).isSome := by
  have hd1 : 0 < cmdDuration (BuildCmd.spike 10) := by norm_num [cmdDuration]
  have hd2 : 0 < cmdDuration (BuildCmd.rampUp 20 10) := by norm_num [cmdDuration]
  have hd3 : 0 < cmdDuration (BuildCmd.steadyUsers 5 5) := by norm_num [cmdDuration]
  have hd4 : 0 < cmdDuration (BuildCmd.stressRamp 5 15 10) := by norm_num [cmdDuration]
  have hd : ∀ c ∈ demoCmds, 0 < cmdDuration c := by
    intro c hc
    simp only [demoCmds, List.mem_cons, List.not_mem_nil, or_false] at hc
    rcases hc with rfl | rfl | rfl | rfl
    · exact hd1
    · exact hd2
    · exact hd3
    · exact hd4
  refine ⟨runBuilder_demo, by simp [demoFinal], hd1, hd2, hd3, hd4,
    by norm_num, by norm_num [demoFinal],
    C10_tick_defined_on_span demoCmds demoFinal 7 runBuilder_demo
      (by simp [demoFinal]) hd (by norm_num) (by norm_num [demoFinal])⟩
